import Mathlib

/-!
# Verification of the codigo-penal document-splitting pipeline

Shallow embedding of the repository's core logic:

* `split_articles.py` — footnote/title heuristics, title-block candidate
  pre-scan, the two backward boundary scans, range resolution and the
  emitted article filenames;
* `scripts/extract_pdf.py` — `detect_line_type` and the per-line loop of
  `extract_with_metadata` that builds the flat line stream and the header
  metadata list;
* `extract_pdf.py` / `scripts/extract_pdf.py` — the geometric layout
  computation (column separator and content band) with its fallbacks.

Python strings are modelled as Lean `String` (lists of unicode scalar
characters), Python ints as `Nat` (all indices in this program are
non-negative), and Python floats as `ℚ`.  Python's `str.isupper` /
`str.lower` are modelled over the character universe actually occurring in
this Spanish-language pipeline: ASCII letters plus the accented letters
Á É Í Ó Ú Ü Ñ (and their lower-case forms).
-/

namespace CodigoPenal

/-! ## Python string primitives -/

/-- The whitespace characters recognised by Python's `str.strip` and the
regex class `\s` (ASCII part, which is all this document uses). -/
def pySpaceChar (c : Char) : Bool :=
  c == ' ' || c == '\t' || c == '\n' || c == '\r' || c == '\x0b' || c == '\x0c'

/-- Lower-case cased characters of the modelled universe. -/
def lowerCased (c : Char) : Bool :=
  ('a' ≤ c && c ≤ 'z') || c == 'á' || c == 'é' || c == 'í' || c == 'ó' ||
    c == 'ú' || c == 'ü' || c == 'ñ'

/-- Upper-case cased characters of the modelled universe. -/
def upperCased (c : Char) : Bool :=
  ('A' ≤ c && c ≤ 'Z') || c == 'Á' || c == 'É' || c == 'Í' || c == 'Ó' ||
    c == 'Ú' || c == 'Ü' || c == 'Ñ'

/-- Python `str.lower`, character-wise, over the modelled universe. -/
def pyLower (c : Char) : Char :=
  if 'A' ≤ c && c ≤ 'Z' then Char.ofNat (c.toNat + 32)
  else if c == 'Á' then 'á' else if c == 'É' then 'é' else if c == 'Í' then 'í'
  else if c == 'Ó' then 'ó' else if c == 'Ú' then 'ú' else if c == 'Ü' then 'ü'
  else if c == 'Ñ' then 'ñ' else c

/-- Python `str.strip` on a character list. -/
def stripChars (l : List Char) : List Char :=
  ((l.dropWhile pySpaceChar).reverse.dropWhile pySpaceChar).reverse

/-- Python `str.strip`. -/
def pyStrip (s : String) : String := ⟨stripChars s.data⟩

/-- Python `str.isupper`: at least one cased character and no lower-case
cased character. -/
def pyIsUpper (s : String) : Bool :=
  s.data.any upperCased && !(s.data.any lowerCased)

/-- Python `needle in haystack` substring test, over character lists. -/
def hasSub (pat : List Char) : List Char → Bool
  | [] => pat.isEmpty
  | c :: t => pat.isPrefixOf (c :: t) || hasSub pat t

/-- Python `sub in s` on strings. -/
def strContains (s sub : String) : Bool := hasSub sub.data s.data

/-! ## Regular-expression fragments of the sources

All regexes in the repository are simple enough to be deterministic:
the greedy maximal-munch reading below coincides with Python `re`
semantics on them (no alternative requires backtracking, because after a
maximal `\d+` / `\s+` run the following literal can never extend it). -/

/-- Head of the list is an ASCII digit (`\d` at the current position). -/
def startsDigit : List Char → Bool
  | c :: _ => c.isDigit
  | [] => false

/-- `N[º°]\s*\d+` anchored at the head of the list. -/
def matchNumRef : List Char → Bool
  | 'N' :: c :: rest =>
      (c == 'º' || c == '°') && startsDigit (rest.dropWhile pySpaceChar)
  | _ => false

/-- `Ley\s+N[º°]\s*\d+` anchored at the head of the list. -/
def matchLeyRef : List Char → Bool
  | 'L' :: 'e' :: 'y' :: c :: rest =>
      pySpaceChar c && matchNumRef ((c :: rest).dropWhile pySpaceChar)
  | _ => false

/-- `No\.\s*\d+` anchored at the head of the list. -/
def matchNoRef : List Char → Bool
  | 'N' :: 'o' :: '.' :: rest => startsDigit (rest.dropWhile pySpaceChar)
  | _ => false

/-- The article keyword `Artículo`; returns the remaining characters when
the list starts with it. -/
def chompArticuloKw : List Char → Option (List Char)
  | 'A' :: 'r' :: 't' :: 'í' :: 'c' :: 'u' :: 'l' :: 'o' :: rest => some rest
  | _ => none

/-- `Artículo\s+(\d+(?:-[A-Z])?)` anchored at the head: returns the text
captured by group 1 and the remaining characters. -/
def parseArticuloCore (cs : List Char) : Option (String × List Char) :=
  match chompArticuloKw cs with
  | none => none
  | some r1 =>
    match r1 with
    | [] => none
    | c :: _ =>
      if pySpaceChar c then
        let r2 := r1.dropWhile pySpaceChar
        let ds := r2.takeWhile Char.isDigit
        let r3 := r2.dropWhile Char.isDigit
        if ds.isEmpty then none
        else
          match r3 with
          | '-' :: u :: r4 =>
              if 'A' ≤ u && u ≤ 'Z' then some (⟨ds ++ ['-', u]⟩, r4)
              else some (⟨ds⟩, r3)
          | _ => some (⟨ds⟩, r3)
      else none

/-- `re.match(r'Artículo\s+(\d+(?:-[A-Z])?)', text)`, group 1
(`split_articles.py`, line 91). -/
def parseArticuloNum (text : String) : Option String :=
  (parseArticuloCore text.data).map (·.1)

/-- `re.match(r'^Artículo\s+\d+(?:-[A-Z])?\s*\.-', text)` as a boolean
(`split_articles.py` line 62, `scripts/extract_pdf.py` line 157). -/
def matchesArticuloHeader (text : String) : Bool :=
  match parseArticuloCore text.data with
  | some (_, rest) =>
    match rest.dropWhile pySpaceChar with
    | '.' :: '-' :: _ => true
    | _ => false
  | none => false

/-- Full match `^Artículo\s+\d+(?:-[A-Z])?$`: the line consists of the
article keyword and a declared number alone, with no trailing `.-`. -/
def matchesArticuloNoDot (text : String) : Bool :=
  match parseArticuloCore text.data with
  | some (_, rest) => rest.isEmpty
  | none => false

/-! ## `split_articles.py` heuristics -/

/-- The tests `is_footnote_line` applies to its stripped argument
(`split_articles.py` lines 25-36). -/
def footnoteCore (text : String) : Bool :=
  if text == "" then false
  else if matchNumRef text.data || matchLeyRef text.data || matchNoRef text.data then true
  else
    let lowered := text.data.map pyLower
    if hasSub "publicada el".data lowered then true
    else if hasSub "modificado por".data lowered || hasSub "incorporado por".data lowered ||
        hasSub "sustituido por".data lowered then true
    else if hasSub "(*)".data text.data then true
    else false

/-- `is_footnote_line` (`split_articles.py` lines 22-36): strips, then
tests. -/
def isFootnoteLine (lineText : String) : Bool :=
  footnoteCore (pyStrip lineText)

/-- `is_likely_title` (`split_articles.py` lines 6-19). -/
def isLikelyTitle (lineText : String) : Bool :=
  if lineText == "" then false
  else if isFootnoteLine lineText then false
  else if (lineText.data.head?.any fun c =>
      c == '"' || c == Char.ofNat 8220 || c == Char.ofNat 8221 || c == '«' || c == '»') &&
      lineText.length < 80 then true
  else if pyIsUpper lineText && lineText.length < 80 then true
  else false

/-- One structural-metadata record (`{line, type, text, page}`). -/
structure Header where
  line : Nat
  type : String
  text : String
  page : Nat
deriving DecidableEq, Repr

/-- `lines[j]` guarded by `j < len(lines)`, else `""`
(`split_articles.py` lines 115 and 145). -/
def getLine (lines : List String) (j : Nat) : String :=
  if j < lines.length then lines.getD j "" else ""

/-- `is_title_continuation_line` (`split_articles.py` lines 39-52). -/
def isTitleContinuationLine (lines : List String) (lm : Nat → Option Header)
    (idx : Nat) : Bool :=
  if idx = 0 || lines.length ≤ idx then false
  else
    match lm (idx - 1) with
    | none => false
    | some m =>
      if m.type ≠ "ART_TITLE" then false
      else if pyStrip (lines.getD idx "") == "" then false
      else if isFootnoteLine (pyStrip (lines.getD idx "")) then false
      else if "Artículo".data.isPrefixOf (pyStrip (lines.getD idx "")).data then false
      else true

/-- First `k` in `range(i+1, min(i+6, len(lines)))` whose stripped line
matches the article-header regex (`split_articles.py` lines 61-62). -/
def firstHeaderAfter (lines : List String) (i : Nat) : Option Nat :=
  (List.range' (i + 1) (min (i + 6) lines.length - (i + 1))).find?
    (fun k => matchesArticuloHeader (pyStrip (lines.getD k "")))

/-- `build_title_block_candidates` (`split_articles.py` lines 55-67):
the set of marked indices, as a list. -/
def buildTitleBlockCandidates (lines : List String) : List Nat :=
  (List.range lines.length).flatMap fun i =>
    if isLikelyTitle (lines.getD i "") then
      match firstHeaderAfter lines i with
      | some k =>
          (List.range' i (k - i)).filter fun j =>
            pyStrip (lines.getD j "") != "" && !isFootnoteLine (lines.getD j "")
      | none => []
    else []

/-- Membership in the candidate set. -/
def candAt (lines : List String) (j : Nat) : Bool :=
  (buildTitleBlockCandidates lines).contains j

/-- The classified types that extend a title block
(`split_articles.py` lines 119 and 149). -/
def titleTypes : List String :=
  ["ART_TITLE", "H2", "CAPITULO", "SECCION", "TITULO", "LIBRO"]

/-- The body shared by both backward scans (`split_articles.py`
lines 113-136 and 143-164): fold over the descending index list,
carrying the current title-block start. -/
def scanBack (lines : List String) (lm : Nat → Option Header)
    (cand : Nat → Bool) : List Nat → Nat → Nat
  | [], acc => acc
  | j :: rest, acc =>
    let lineText := pyStrip (getLine lines j)
    match lm j with
    | some m =>
      if m.type ∈ titleTypes then scanBack lines lm cand rest j
      else acc
    | none =>
      if lineText == "" then scanBack lines lm cand rest acc
      else if isTitleContinuationLine lines lm j then scanBack lines lm cand rest (j - 1)
      else if cand j then scanBack lines lm cand rest j
      else if isFootnoteLine lineText then acc
      else acc

/-- `[s, s-1, ..., e+1]`: Python `range(s, e, -1)` for `0 ≤ e ≤ s`
(both scans only ever call it with non-negative ends). -/
def downFromTo (s e : Nat) : List Nat :=
  (List.range' (e + 1) (s - e)).reverse

/-- Index list of the end-of-article scan:
`range(next_art_line - 1, art_line, -1)` (`split_articles.py` line 114). -/
def endScanIndices (artLine nextLine : Nat) : List Nat :=
  downFromTo (nextLine - 1) artLine

/-- Index list of the start-of-article scan:
`range(art_line - 1, max(0, art_line - 30), -1)` (`split_articles.py`
line 144). -/
def startScanIndices (artLine : Nat) : List Nat :=
  downFromTo (artLine - 1) (max 0 (artLine - 30))

/-! ## Boundary resolution (`split_articles`, lines 84-188) -/

/-- One parsed article descriptor. -/
structure Article where
  num : String
  line : Nat
  page : Nat
deriving DecidableEq, Repr

/-- `line_meta = {h["line"]: h for h in metadata["headers"]}`: a Python
dict comprehension, so a later header with the same line wins. -/
def lineMetaOf (headers : List Header) : Nat → Option Header :=
  fun j => headers.reverse.find? (fun h => h.line == j)

/-- The `ARTICULO` entries whose text yields a declared number
(`split_articles.py` lines 88-97). -/
def parseArticles (headers : List Header) : List Article :=
  headers.filterMap fun h =>
    if h.type = "ARTICULO" then
      (parseArticuloNum h.text).map fun n => ⟨n, h.line, h.page⟩
    else none

/-- The per-article loop (`split_articles.py` lines 102-185), returning
the half-open content range of each article in document order.  `prevEnd`
is `prev_end_line`; `isFirst` tracks `i > 0` for the overlap clamp. -/
def resolveRangesAux (lines : List String) (lm : Nat → Option Header)
    (cand : Nat → Bool) : List Article → Nat → Bool → List (Nat × Nat)
  | [], _, _ => []
  | a :: rest, prevEnd, isFirst =>
    let endLine :=
      match rest with
      | [] => lines.length
      | b :: _ => scanBack lines lm cand (endScanIndices a.line b.line) b.line
    let tstart := scanBack lines lm cand (startScanIndices a.line) a.line
    let start := if isFirst then tstart else max tstart prevEnd
    (start, endLine) :: resolveRangesAux lines lm cand rest endLine false

/-- The sequence of content ranges emitted by `split_articles`. -/
def splitRanges (lines : List String) (headers : List Header) : List (Nat × Nat) :=
  resolveRangesAux lines (lineMetaOf headers) (candAt lines) (parseArticles headers) 0 true

/-- Python `f"{n:0{w}d}"` for natural `n`. -/
def padNum (w n : Nat) : String :=
  let s := Nat.repr n
  ⟨List.replicate (w - s.length) '0' ++ s.data⟩

/-- Python `int` on a run of decimal digits. -/
def decimalValue (cs : List Char) : Nat :=
  cs.foldl (fun acc c => 10 * acc + (c.toNat - 48)) 0

/-- Python `s.split('-')[0]`: the characters before the first dash. -/
def beforeDash (num : String) : List Char :=
  num.data.takeWhile (fun c => c != '-')

/-- Python `s.split('-')[1]`: the characters between the first and second
dash. -/
def afterDash (num : String) : List Char :=
  ((num.data.dropWhile (fun c => c != '-')).drop 1).takeWhile (fun c => c != '-')

/-- Filename policy (`split_articles.py` lines 174-180): `i` is the
0-based position in document order, `orderWidth = len(str(len(articles)))`. -/
def articleFilename (orderWidth i : Nat) (num : String) : String :=
  let pre := padNum orderWidth (i + 1)
  if num.data.contains '-' then
    let base := decimalValue (beforeDash num)
    let suffix : String := ⟨afterDash num⟩
    pre ++ "_articulo_" ++ padNum 3 base ++ "_" ++ suffix ++ ".txt"
  else
    pre ++ "_articulo_" ++ padNum 3 (decimalValue num.data) ++ ".txt"

/-- `'\n'.join(lines[start:end]).strip()` (`split_articles.py` line 171). -/
def rangeContent (lines : List String) (r : Nat × Nat) : String :=
  pyStrip (String.intercalate "\n" ((lines.drop r.1).take (r.2 - r.1)))

/-- The output units written by `split_articles`: one `(filename, content)`
pair per parsed article, in document order. -/
def splitFiles (lines : List String) (headers : List Header) : List (String × String) :=
  let arts := parseArticles headers
  let ranges := splitRanges lines headers
  let orderWidth := (Nat.repr arts.length).length
  (arts.zip ranges).enum.map fun p =>
    (articleFilename orderWidth p.1 p.2.1.num, rangeContent lines p.2.2)

/-! ## Line classification and stream building (`scripts/extract_pdf.py`) -/

/-- A word-line with font information, as produced by
`group_words_into_lines`. -/
structure WordLine where
  text : String
  is_bold : Bool
  size : ℚ
deriving DecidableEq, Repr

/-- `detect_line_type` (`scripts/extract_pdf.py` lines 138-187). -/
def detectLineType (lineText : String) (wordLines : List WordLine) : Option String :=
  let t := pyStrip lineText
  if t == "" then none
  else
    let lineLower := (t.data.take 30).map pyLower
    let fontInfo := wordLines.find? fun wl =>
      let wlLower := (wl.text.data.take 30).map pyLower
      hasSub lineLower wlLower || hasSub wlLower lineLower
    let isBold := match fontInfo with | some f => f.is_bold | none => false
    let size : ℚ := match fontInfo with | some f => f.size | none => 9
    if matchesArticuloHeader t then some "ARTICULO"
    else if strContains t "LIBRO" && pyIsUpper t then some "LIBRO"
    else if strContains t "TÍTULO" || "TÍTULO".data.isPrefixOf t.data then some "TITULO"
    else if strContains t "CAPÍTULO" || "CAPÍTULO".data.isPrefixOf t.data then some "CAPITULO"
    else if strContains t "SECCIÓN" || "SECCIÓN".data.isPrefixOf t.data then some "SECCION"
    else if isBold && pyIsUpper t && t.length < 60 && 3 < t.length then some "H2"
    else if isBold && (17/2 : ℚ) ≤ size && size < 10 &&
        t.length < 80 && !pyIsUpper t &&
        !(!(t.data.takeWhile Char.isDigit).isEmpty &&
            (t.data.dropWhile Char.isDigit).head? == some '.') &&
        (t.data.head?.any upperCased) then some "ART_TITLE"
    else none

/-- One column's worth of input to the stream builder: the page number,
the clean text lines of the column (from `extract_text`), and the
font-bearing word-lines of the same region. -/
structure Column where
  page : Nat
  textLines : List String
  wordLines : List WordLine

/-- The inner loop of `extract_with_metadata`
(`scripts/extract_pdf.py` lines 62-80): empty (all-whitespace) lines are
dropped; every kept line is appended to the stream, and classified lines
get a header record carrying the current stream index. -/
def processColumn (page : Nat) (wls : List WordLine) :
    List String → List String → List Header → List String × List Header
  | [], stream, headers => (stream, headers)
  | l :: rest, stream, headers =>
    if pyStrip l == "" then processColumn page wls rest stream headers
    else
      match detectLineType (pyStrip l) wls with
      | some t =>
        processColumn page wls rest (stream ++ [l])
          (headers ++ [⟨stream.length, t, pyStrip l, page⟩])
      | none => processColumn page wls rest (stream ++ [l]) headers

/-- `extract_with_metadata`, abstracted over the per-column text delivered
by the external PDF primitive: returns the flat line stream and the header
metadata list. -/
def extractWithMetadata (cols : List Column) : List String × List Header :=
  cols.foldl (fun acc c => processColumn c.page c.wordLines c.textLines acc.1 acc.2) ([], [])

/-! ## Geometric layout (`extract_pdf.py` lines 14-46,
`scripts/extract_pdf.py` lines 22-48) -/

/-- A drawn line segment with its two endpoints. -/
structure Segment where
  x0 : ℚ
  y0 : ℚ
  x1 : ℚ
  y1 : ℚ

/-- Python `max(vertical_lines, key=lambda l: abs(l['y1'] - l['y0']))`:
first maximum wins. -/
def maxByVertExtent (segs : List Segment) : Option Segment :=
  segs.foldl
    (fun best l =>
      match best with
      | none => some l
      | some b => if |l.y1 - l.y0| > |b.y1 - b.y0| then some l else some b)
    none

/-- Python `min(footer_lines, key=lambda l: l['y0'])`: first minimum wins. -/
def minByY0 (segs : List Segment) : Option Segment :=
  segs.foldl
    (fun best l =>
      match best with
      | none => some l
      | some b => if l.y0 < b.y0 then some l else some b)
    none

/-- Stable ascending insertion by `y0` (Python `list.sort(key=lambda l: l['y0'])`). -/
def insertByY0 (l : Segment) : List Segment → List Segment
  | [] => [l]
  | x :: xs => if l.y0 < x.y0 then l :: x :: xs else x :: insertByY0 l xs

/-- Stable sort by `y0`. -/
def sortByY0 (segs : List Segment) : List Segment :=
  segs.foldl (fun acc l => insertByY0 l acc) []

/-- The layout computation shared by `extract_columns`
(`extract_pdf.py` lines 14-42) and `extract_with_metadata`
(`scripts/extract_pdf.py` lines 22-44): returns
`(separator x, content top, content bottom)`. -/
def computeLayout (segs : List Segment) (width height : ℚ) : ℚ × ℚ × ℚ :=
  let verticals := segs.filter fun l => |l.x0 - l.x1| < 2
  let horizontals := segs.filter fun l => |l.y0 - l.y1| < 2
  let fullWidth := sortByY0 (horizontals.filter fun l => l.x1 - l.x0 > width * (8/10))
  let sepX :=
    match maxByVertExtent verticals with
    | some l => l.x0
    | none => width / 2
  let contentTop :=
    match fullWidth with
    | l :: _ => l.y0 + 28
    | [] => height * (6/100)
  let footer := fullWidth.filter fun l => l.y0 > height * (95/100)
  let contentBottom :=
    match minByY0 footer with
    | some l => l.y0 - 2
    | none => height * (92/100)
  (sepX, contentTop, contentBottom)

/-! ## The range well-formedness property (claim C1) -/

/-- The invariant claimed of the emitted content ranges: starts are
non-negative, each range's start is at most its end, consecutive ranges
are monotonically non-decreasing, ranges are pairwise non-overlapping,
and the last range ends at the length of the line stream. -/
def rangesWellFormed (n : Nat) (rs : List (Nat × Nat)) : Prop :=
  (∀ r ∈ rs, r.1 ≤ r.2) ∧
  List.Chain' (fun r s => r.2 ≤ s.1) rs ∧
  List.Pairwise (fun r s => r.2 ≤ s.1) rs ∧
  (∀ r ∈ rs, 0 ≤ r.1) ∧
  (∀ r ∈ rs.getLast?.toList, r.2 = n)

/-! ## Helper lemmas -/

theorem mem_downFromTo {s e j : Nat} : j ∈ downFromTo s e ↔ e < j ∧ j ≤ s := by
  rw [downFromTo, List.mem_reverse, List.mem_range']
  constructor
  · rintro ⟨i, hi, rfl⟩; omega
  · intro h; exact ⟨j - (e + 1), by omega, by omega⟩

/-- Unfolding `scanBack` one step. -/
theorem scanBack_cons (lines : List String) (lm : Nat → Option Header)
    (cand : Nat → Bool) (j : Nat) (rest : List Nat) (acc : Nat) :
    scanBack lines lm cand (j :: rest) acc =
      match lm j with
      | some m =>
        if m.type ∈ titleTypes then scanBack lines lm cand rest j
        else acc
      | none =>
        if pyStrip (getLine lines j) == "" then scanBack lines lm cand rest acc
        else if isTitleContinuationLine lines lm j then scanBack lines lm cand rest (j - 1)
        else if cand j then scanBack lines lm cand rest j
        else if isFootnoteLine (pyStrip (getLine lines j)) then acc
        else acc := rfl

/-- Unfolding `scanBack` when the line is classified. -/
theorem scanBack_cons_some (lines : List String) (lm : Nat → Option Header)
    (cand : Nat → Bool) (j : Nat) (rest : List Nat) (acc : Nat) (m : Header)
    (hm : lm j = some m) :
    scanBack lines lm cand (j :: rest) acc =
      if m.type ∈ titleTypes then scanBack lines lm cand rest j else acc := by
  rw [scanBack_cons, hm]

/-- Unfolding `scanBack` when the line is unclassified. -/
theorem scanBack_cons_none (lines : List String) (lm : Nat → Option Header)
    (cand : Nat → Bool) (j : Nat) (rest : List Nat) (acc : Nat)
    (hm : lm j = none) :
    scanBack lines lm cand (j :: rest) acc =
      if pyStrip (getLine lines j) == "" then scanBack lines lm cand rest acc
      else if isTitleContinuationLine lines lm j then scanBack lines lm cand rest (j - 1)
      else if cand j then scanBack lines lm cand rest j
      else if isFootnoteLine (pyStrip (getLine lines j)) then acc
      else acc := by
  rw [scanBack_cons, hm]

/-- The scan result stays inside `[lo, hi]` when the visited indices and
the initial accumulator do. -/
theorem scanBack_bounds (lines : List String) (lm : Nat → Option Header)
    (cand : Nat → Bool) (idxs : List Nat) (lo hi : Nat) :
    ∀ acc, (∀ j ∈ idxs, lo < j ∧ j ≤ hi) → lo ≤ acc → acc ≤ hi →
      lo ≤ scanBack lines lm cand idxs acc ∧ scanBack lines lm cand idxs acc ≤ hi := by
  induction idxs with
  | nil => exact fun acc _ h1 h2 => ⟨h1, h2⟩
  | cons j rest ih =>
    intro acc hidx h1 h2
    have hj := hidx j (List.mem_cons_self _ _)
    have hrest : ∀ k ∈ rest, lo < k ∧ k ≤ hi :=
      fun k hk => hidx k (List.mem_cons_of_mem _ hk)
    rw [scanBack_cons]
    cases hm : lm j with
    | some m =>
      by_cases ht : m.type ∈ titleTypes
      · simp only [ht, if_true]
        exact ih j hrest (by omega) (by omega)
      · simp only [ht, if_false]
        exact ⟨h1, h2⟩
    | none =>
      by_cases he : pyStrip (getLine lines j) == ""
      · simp only [he, if_true]
        exact ih acc hrest h1 h2
      · simp only [he, if_false]
        by_cases hc : isTitleContinuationLine lines lm j
        · simp only [hc, if_true]
          exact ih (j - 1) hrest (by omega) (by omega)
        · simp only [hc, if_false]
          by_cases hcd : cand j
          · simp only [hcd, if_true]
            exact ih j hrest (by omega) (by omega)
          · simp only [hcd, if_false]
            by_cases hf : isFootnoteLine (pyStrip (getLine lines j))
            · simp only [hf, if_true]; exact ⟨h1, h2⟩
            · simp only [hf, if_false]; exact ⟨h1, h2⟩

/-- The scan result is the initial accumulator, a visited index, or one
less than a visited index (the title-continuation extension). -/
theorem scanBack_result (lines : List String) (lm : Nat → Option Header)
    (cand : Nat → Bool) (idxs : List Nat) :
    ∀ acc, scanBack lines lm cand idxs acc = acc ∨
      ∃ j ∈ idxs, scanBack lines lm cand idxs acc = j ∨
        scanBack lines lm cand idxs acc = j - 1 := by
  induction idxs with
  | nil => exact fun acc => Or.inl rfl
  | cons j rest ih =>
    intro acc
    have step : ∀ acc', scanBack lines lm cand rest acc' = acc' ∨
        ∃ k ∈ j :: rest, scanBack lines lm cand rest acc' = k ∨
          scanBack lines lm cand rest acc' = k - 1 := by
      intro acc'
      rcases ih acc' with h | ⟨k, hk, h⟩
      · exact Or.inl h
      · exact Or.inr ⟨k, List.mem_cons_of_mem _ hk, h⟩
    cases hm : lm j with
    | some m =>
      rw [scanBack_cons_some lines lm cand j rest acc m hm]
      by_cases ht : m.type ∈ titleTypes
      · rw [if_pos ht]
        rcases step j with h | h
        · exact Or.inr ⟨j, List.mem_cons_self _ _, Or.inl h⟩
        · exact Or.inr h
      · rw [if_neg ht]; exact Or.inl rfl
    | none =>
      rw [scanBack_cons_none lines lm cand j rest acc hm]
      by_cases he : pyStrip (getLine lines j) == ""
      · rw [if_pos he]
        rcases step acc with h | h
        · exact Or.inl h
        · exact Or.inr h
      · rw [if_neg he]
        by_cases hc : isTitleContinuationLine lines lm j
        · rw [if_pos hc]
          rcases step (j - 1) with h | h
          · exact Or.inr ⟨j, List.mem_cons_self _ _, Or.inr h⟩
          · exact Or.inr h
        · rw [if_neg hc]
          by_cases hcd : cand j
          · rw [if_pos hcd]
            rcases step j with h | h
            · exact Or.inr ⟨j, List.mem_cons_self _ _, Or.inl h⟩
            · exact Or.inr h
          · rw [if_neg hcd]
            by_cases hf : isFootnoteLine (pyStrip (getLine lines j))
            · rw [if_pos hf]; exact Or.inl rfl
            · rw [if_neg hf]; exact Or.inl rfl

theorem dropWhile_dropWhile (p : Char → Bool) (l : List Char) :
    (l.dropWhile p).dropWhile p = l.dropWhile p := by
  induction l with
  | nil => rfl
  | cons a l ih =>
    by_cases h : p a
    · simp [List.dropWhile_cons, h, ih]
    · simp [List.dropWhile_cons, h]

/-- If a list has no leading `p`-run, trimming its trailing `p`-run keeps
it free of a leading `p`-run. -/
theorem dropWhile_trimRight (p : Char → Bool) (m : List Char)
    (hm : m.dropWhile p = m) :
    ((m.reverse.dropWhile p).reverse).dropWhile p = (m.reverse.dropWhile p).reverse := by
  cases hr : (m.reverse.dropWhile p).reverse with
  | nil => rfl
  | cons c t =>
    have hsuf : m.reverse.dropWhile p <:+ m.reverse := List.dropWhile_suffix p
    have hpre : (m.reverse.dropWhile p).reverse <+: m := by
      have := List.reverse_prefix.mpr hsuf
      rwa [List.reverse_reverse] at this
    rw [hr] at hpre
    obtain ⟨tail2, htail⟩ := hpre
    have hc : p c = false := by
      by_contra hcontra
      have hpc : p c = true := by
        cases hcp : p c
        · exact absurd hcp hcontra
        · rfl
      have hm2 : m = c :: (t ++ tail2) := by rw [← htail]; rfl
      have heq : m.dropWhile p = (t ++ tail2).dropWhile p := by
        conv_lhs => rw [hm2]
        rw [List.dropWhile_cons, hpc]
        simp
      have hlen : ((t ++ tail2).dropWhile p).length ≤ (t ++ tail2).length :=
        (List.dropWhile_suffix p).length_le
      rw [← heq, hm, hm2] at hlen
      simp only [List.length_cons, List.length_append] at hlen
      omega
    rw [List.dropWhile_cons, hc]
    simp

theorem stripChars_idem (l : List Char) : stripChars (stripChars l) = stripChars l := by
  unfold stripChars
  have h1 : (l.dropWhile pySpaceChar).dropWhile pySpaceChar = l.dropWhile pySpaceChar :=
    dropWhile_dropWhile _ _
  have h2 := dropWhile_trimRight pySpaceChar (l.dropWhile pySpaceChar) h1
  rw [h2, List.reverse_reverse, dropWhile_dropWhile]

theorem pyStrip_idem (s : String) : pyStrip (pyStrip s) = pyStrip s := by
  have h : pyStrip (pyStrip s) = ⟨stripChars (stripChars s.data)⟩ := rfl
  rw [h, stripChars_idem]
  rfl

/-- `is_footnote_line` strips its argument itself, so pre-stripping is
invisible to it. -/
theorem isFootnoteLine_strip (s : String) :
    isFootnoteLine (pyStrip s) = isFootnoteLine s := by
  unfold isFootnoteLine
  rw [pyStrip_idem]

/-- A footnote line has a non-empty stripped form. -/
theorem footnote_strip_ne (s : String) (h : isFootnoteLine s = true) :
    (pyStrip s == "") = false := by
  cases hc : pyStrip s == "" with
  | false => rfl
  | true =>
    unfold isFootnoteLine footnoteCore at h
    rw [if_pos hc] at h
    simp at h

/-- A footnote line is never a title-continuation line. -/
theorem continuation_not_footnote (lines : List String) (lm : Nat → Option Header)
    (idx : Nat) (hf : isFootnoteLine (getLine lines idx) = true) :
    isTitleContinuationLine lines lm idx = false := by
  unfold isTitleContinuationLine
  split
  · rfl
  next hguard =>
    split
    · rfl
    next m hm =>
      split
      · rfl
      next htype =>
        split
        · rfl
        next hne =>
          split
          · rfl
          next hnf =>
            exfalso
            apply hnf
            have hlt : idx < lines.length := by
              simp at hguard
              omega
            have hget : getLine lines idx = lines.getD idx "" := by
              unfold getLine
              rw [if_pos hlt]
            rw [isFootnoteLine_strip, ← hget]
            exact hf

/-- Marked title-block candidates are never footnote lines. -/
theorem candidate_not_footnote (lines : List String) (j : Nat)
    (hj : j ∈ buildTitleBlockCandidates lines) :
    isFootnoteLine (lines.getD j "") = false := by
  simp only [buildTitleBlockCandidates, List.mem_flatMap] at hj
  obtain ⟨i, _, hmem⟩ := hj
  by_cases hl : isLikelyTitle (lines.getD i "")
  · rw [if_pos hl] at hmem
    cases hfa : firstHeaderAfter lines i with
    | none => rw [hfa] at hmem; simp at hmem
    | some k =>
      rw [hfa] at hmem
      have h2 := (List.mem_filter.mp hmem).2
      have := (Bool.and_eq_true _ _).mp h2
      cases hb : isFootnoteLine (lines.getD j "") with
      | false => rfl
      | true => rw [hb] at this; simp at this
  · rw [if_neg hl] at hmem
    simp at hmem

/-- A footnote line is never in the candidate set. -/
theorem footnote_not_candidate (lines : List String) (j : Nat)
    (hf : isFootnoteLine (getLine lines j) = true) :
    candAt lines j = false := by
  cases hc : candAt lines j with
  | false => rfl
  | true =>
    have hj : j ∈ buildTitleBlockCandidates lines := by
      have h2 := hc
      unfold candAt at h2
      exact List.elem_iff.mp h2
    have hnf := candidate_not_footnote lines j hj
    by_cases hlt : j < lines.length
    · have : getLine lines j = lines.getD j "" := by unfold getLine; rw [if_pos hlt]
      rw [this] at hf
      rw [hf] at hnf
      exact absurd hnf (by simp)
    · have : getLine lines j = "" := by unfold getLine; rw [if_neg hlt]
      rw [this] at hf
      exact absurd hf (by decide)

/-- Unfolding `resolveRangesAux` for the last article. -/
theorem resolveRangesAux_one (lines : List String) (lm : Nat → Option Header)
    (cand : Nat → Bool) (a : Article) (prevEnd : Nat) (isFirst : Bool) :
    resolveRangesAux lines lm cand [a] prevEnd isFirst =
      [((if isFirst then scanBack lines lm cand (startScanIndices a.line) a.line
         else max (scanBack lines lm cand (startScanIndices a.line) a.line) prevEnd),
        lines.length)] := rfl

/-- Unfolding `resolveRangesAux` for an article with a successor. -/
theorem resolveRangesAux_two (lines : List String) (lm : Nat → Option Header)
    (cand : Nat → Bool) (a b : Article) (bs : List Article) (prevEnd : Nat)
    (isFirst : Bool) :
    resolveRangesAux lines lm cand (a :: b :: bs) prevEnd isFirst =
      ((if isFirst then scanBack lines lm cand (startScanIndices a.line) a.line
        else max (scanBack lines lm cand (startScanIndices a.line) a.line) prevEnd),
       scanBack lines lm cand (endScanIndices a.line b.line) b.line) ::
        resolveRangesAux lines lm cand (b :: bs)
          (scanBack lines lm cand (endScanIndices a.line b.line) b.line) false := rfl

/-- The start-of-article scan result lies in `[0, artLine]`. -/
theorem startScan_le (lines : List String) (lm : Nat → Option Header)
    (cand : Nat → Bool) (artLine : Nat) :
    scanBack lines lm cand (startScanIndices artLine) artLine ≤ artLine := by
  have h := scanBack_bounds lines lm cand (startScanIndices artLine) 0 artLine artLine
    (fun j hj => by
      rw [startScanIndices, mem_downFromTo] at hj
      omega)
    (Nat.zero_le _) (Nat.le_refl _)
  exact h.2

/-- The end-of-article scan result lies in `[artLine, nextLine]` when the
descriptors are in order. -/
theorem endScan_bounds (lines : List String) (lm : Nat → Option Header)
    (cand : Nat → Bool) (artLine nextLine : Nat) (hle : artLine ≤ nextLine) :
    artLine ≤ scanBack lines lm cand (endScanIndices artLine nextLine) nextLine ∧
      scanBack lines lm cand (endScanIndices artLine nextLine) nextLine ≤ nextLine := by
  exact scanBack_bounds lines lm cand (endScanIndices artLine nextLine) artLine nextLine nextLine
    (fun j hj => by
      rw [endScanIndices, mem_downFromTo] at hj
      omega)
    hle (Nat.le_refl _)

/-- The inductive specification of the per-article loop: one range per
descriptor; starts below ends; consecutive ranges chained; the last range
ends at the stream length; and the first range starts no earlier than
`prevEnd` once the overlap clamp is active. -/
theorem resolveAux_spec (lines : List String) (lm : Nat → Option Header)
    (cand : Nat → Bool) :
    ∀ (arts : List Article) (prevEnd : Nat) (isFirst : Bool),
      List.Chain' (fun a b => a.line ≤ b.line) arts →
      (∀ a ∈ arts, a.line ≤ lines.length) →
      (∀ a ∈ arts.head?.toList, prevEnd ≤ a.line) →
      (resolveRangesAux lines lm cand arts prevEnd isFirst).length = arts.length ∧
      (∀ r ∈ resolveRangesAux lines lm cand arts prevEnd isFirst, r.1 ≤ r.2) ∧
      List.Chain' (fun r s => r.2 ≤ s.1)
        (resolveRangesAux lines lm cand arts prevEnd isFirst) ∧
      (∀ r ∈ (resolveRangesAux lines lm cand arts prevEnd isFirst).getLast?.toList,
        r.2 = lines.length) ∧
      (∀ r ∈ (resolveRangesAux lines lm cand arts prevEnd isFirst).head?.toList,
        isFirst = false → prevEnd ≤ r.1) := by
  intro arts
  induction arts with
  | nil =>
    intro prevEnd isFirst _ _ _
    simp [resolveRangesAux]
  | cons a rest ih =>
    intro prevEnd isFirst hchain hbound hprev
    have hprevA : prevEnd ≤ a.line := by
      apply hprev
      simp
    have htstart : scanBack lines lm cand (startScanIndices a.line) a.line ≤ a.line :=
      startScan_le lines lm cand a.line
    cases rest with
    | nil =>
      rw [resolveRangesAux_one]
      have hA : a.line ≤ lines.length := hbound a (List.mem_cons_self _ _)
      refine ⟨by simp, ?_, by simp, by simp, ?_⟩
      · intro r hr
        simp at hr
        subst hr
        cases isFirst <;> simp <;> omega
      · intro r hr hFirst
        simp at hr
        subst hr
        rw [hFirst]
        simp
    | cons b bs =>
      rw [resolveRangesAux_two]
      have hab : a.line ≤ b.line := (List.chain'_cons.mp hchain).1
      have hE := endScan_bounds lines lm cand a.line b.line hab
      have hrec := ih (scanBack lines lm cand (endScanIndices a.line b.line) b.line) false
        (List.chain'_cons.mp hchain).2
        (fun x hx => hbound x (List.mem_cons_of_mem _ hx))
        (by
          intro x hx
          simp at hx
          subst hx
          exact hE.2)
      refine ⟨by simp [hrec.1], ?_, ?_, ?_, ?_⟩
      · intro r hr
        rcases List.mem_cons.mp hr with rfl | hr'
        · cases isFirst <;> simp <;> omega
        · exact hrec.2.1 r hr'
      · rw [List.chain'_cons']
        exact ⟨fun y hy => hrec.2.2.2.2 y (by simpa using hy) rfl, hrec.2.2.1⟩
      · intro r hr
        cases hres : resolveRangesAux lines lm cand (b :: bs)
            (scanBack lines lm cand (endScanIndices a.line b.line) b.line) false with
        | nil =>
          have hlen := hrec.1
          rw [hres] at hlen
          simp at hlen
        | cons r0 rs =>
          rw [hres, List.getLast?_cons_cons] at hr
          apply hrec.2.2.2.1
          rw [hres]
          exact hr
      · intro r hr hFirst
        simp at hr
        subst hr
        rw [hFirst]
        simp

/-- Propagate a lower bound on the first range's start down a chained
range list whose starts are below their ends. -/
theorem le_of_chain_sep (x : Nat) :
    ∀ (rs : List (Nat × Nat)), (∀ r ∈ rs, r.1 ≤ r.2) →
      List.Chain' (fun r s => r.2 ≤ s.1) rs →
      (∀ r ∈ rs.head?.toList, x ≤ r.1) → ∀ r ∈ rs, x ≤ r.1 := by
  intro rs
  induction rs with
  | nil => simp
  | cons s rs ih =>
    intro hse hch hh r hr
    rcases List.mem_cons.mp hr with rfl | hr'
    · exact hh r (by simp)
    · have hch' := List.chain'_cons'.mp hch
      apply ih (fun t ht => hse t (List.mem_cons_of_mem _ ht)) hch'.2 _ r hr'
      intro t ht
      have h1 := hh s (by simp)
      have h2 := hse s (List.mem_cons_self _ _)
      have h3 := hch'.1 t (by simpa using ht)
      omega

/-- A chained range list whose starts are below their ends is pairwise
non-overlapping. -/
theorem chain_sep_pairwise :
    ∀ (rs : List (Nat × Nat)), (∀ r ∈ rs, r.1 ≤ r.2) →
      List.Chain' (fun r s => r.2 ≤ s.1) rs →
      List.Pairwise (fun r s => r.2 ≤ s.1) rs := by
  intro rs
  induction rs with
  | nil => simp
  | cons r rs ih =>
    intro hse hch
    have hch' := List.chain'_cons'.mp hch
    refine List.pairwise_cons.mpr ⟨?_, ih (fun t ht => hse t (List.mem_cons_of_mem _ ht)) hch'.2⟩
    intro s hs
    have hse' : ∀ t ∈ rs, t.1 ≤ t.2 := fun t ht => hse t (List.mem_cons_of_mem _ ht)
    exact le_of_chain_sep r.2 rs hse' hch'.2
      (fun t ht => hch'.1 t (by simpa using ht)) s hs

/-! ## Claim C1 -/

/-- C1 (amended): for every input line list and metadata table whose
parsed ARTICULO descriptors have non-decreasing line indices not
exceeding the stream length, the ranges emitted by `split_articles`
satisfy `start_i ≤ end_i ≤ start_{i+1}`, `start_0 ≥ 0`, are pairwise
non-overlapping, and the last range ends at the length of the stream. -/
theorem splitRanges_wellFormed (lines : List String) (headers : List Header)
    (hsorted : List.Chain' (fun a b => a.line ≤ b.line) (parseArticles headers))
    (hbound : ∀ a ∈ parseArticles headers, a.line ≤ lines.length) :
    rangesWellFormed lines.length (splitRanges lines headers) := by
  have h := resolveAux_spec lines (lineMetaOf headers) (candAt lines)
    (parseArticles headers) 0 true hsorted hbound (fun a _ => Nat.zero_le _)
  exact ⟨h.2.1, h.2.2.1, chain_sep_pairwise _ h.2.1 h.2.2.1,
    fun r _ => Nat.zero_le _, h.2.2.2.1⟩

/-- Input for the C1 witness: two well-formed articles in order. -/
def c1wLines : List String := ["Artículo 1.- a", "texto", "Artículo 2.- b", "texto"]

/-- Metadata for the C1 witness. -/
def c1wHeaders : List Header :=
  [⟨0, "ARTICULO", "Artículo 1.- a", 1⟩, ⟨2, "ARTICULO", "Artículo 2.- b", 1⟩]

/-- Witness for C1: the hypotheses hold and the conclusion follows on a
concrete input. -/
theorem splitRanges_wellFormed_witness :
    List.Chain' (fun a b => a.line ≤ b.line) (parseArticles c1wHeaders) ∧
    (∀ a ∈ parseArticles c1wHeaders, a.line ≤ c1wLines.length) ∧
    rangesWellFormed c1wLines.length (splitRanges c1wLines c1wHeaders) := by
  have hp : parseArticles c1wHeaders = [⟨"1", 0, 1⟩, ⟨"2", 2, 1⟩] := by decide
  have h1 : List.Chain' (fun a b => a.line ≤ b.line) (parseArticles c1wHeaders) := by
    rw [hp]
    simp [List.chain'_cons]
  have h2 : ∀ a ∈ parseArticles c1wHeaders, a.line ≤ c1wLines.length := by decide
  exact ⟨h1, h2, splitRanges_wellFormed c1wLines c1wHeaders h1 h2⟩

/-- Input refuting C1 as stated: the metadata lists its two ARTICULO
headers out of document order (lines 3 then 1). -/
def c1xLines : List String := ["a", "b", "c", "d", "e"]

/-- Out-of-order metadata for the C1 counterexample. -/
def c1xHeaders : List Header :=
  [⟨3, "ARTICULO", "Artículo 1.- x", 1⟩, ⟨1, "ARTICULO", "Artículo 2.- y", 1⟩]

/-- Counterexample to C1 as stated (quantified over *every* metadata
table): with out-of-order header lines the first emitted range is
`(3, 1)`, whose start exceeds its end. -/
theorem splitRanges_wellFormed_cex :
    ¬ rangesWellFormed c1xLines.length (splitRanges c1xLines c1xHeaders) := by
  intro h
  have h1 := h.1 (3, 1) (by decide)
  simp at h1

/-! ## Claim C2 -/

/-- The concrete line stream of the spec's scenario. -/
def c2Lines : List String :=
  ["TÍTULO I", "DEL HOMICIDIO", "Artículo 1.-  El que mata...", "Artículo 2.-  ..."]

/-- The concrete metadata of the spec's scenario. -/
def c2Headers : List Header :=
  [⟨0, "TITULO", "TÍTULO I", 1⟩, ⟨1, "H2", "DEL HOMICIDIO", 1⟩,
   ⟨2, "ARTICULO", "Artículo 1.-  El que mata...", 1⟩,
   ⟨3, "ARTICULO", "Artículo 2.-  ...", 1⟩]

/-- Counterexample to C2 as stated: the boundary resolver does not assign
article 1 the range `[0, 3)` — the backward start scan
`range(art_line - 1, max(0, art_line - 30), -1)` never visits index 0. -/
theorem c2_ranges_cex : splitRanges c2Lines c2Headers ≠ [(0, 3), (3, 4)] := by decide

/-- C2 (amended): on the scenario input the resolver assigns article 1
the range `[1, 3)` (absorbing the H2 line but not the TITULO line at
index 0, which the bounded backward scan stops short of) and article 2
the range `[3, 4)`. -/
theorem c2_ranges : splitRanges c2Lines c2Headers = [(1, 3), (3, 4)] := by decide

/-! ## Claim C3 -/

/-- C3: when the end-of-article backward scan reaches an unclassified
line recognised as a footnote line, it stops and returns the current
candidate boundary unchanged; since the boundary is still above `j`, the
footnote line stays inside the current article's range rather than being
pulled into the next article's title block. -/
theorem endScan_stops_at_footnote (lines : List String) (lm : Nat → Option Header)
    (j : Nat) (rest : List Nat) (acc : Nat)
    (hmeta : lm j = none)
    (hfoot : isFootnoteLine (getLine lines j) = true)
    (hacc : j < acc) :
    scanBack lines lm (candAt lines) (j :: rest) acc = acc ∧
      j < scanBack lines lm (candAt lines) (j :: rest) acc := by
  have hne : (pyStrip (getLine lines j) == "") = false := footnote_strip_ne _ hfoot
  have hfoot2 : isFootnoteLine (pyStrip (getLine lines j)) = true := by
    rw [isFootnoteLine_strip]
    exact hfoot
  have hcont : isTitleContinuationLine lines lm j = false :=
    continuation_not_footnote lines lm j hfoot
  have hcand : candAt lines j = false := footnote_not_candidate lines j hfoot
  have hstep : scanBack lines lm (candAt lines) (j :: rest) acc = acc := by
    rw [scanBack_cons_none lines lm (candAt lines) j rest acc hmeta]
    rw [if_neg (by simp [hne]), if_neg (by simp [hcont]), if_neg (by simp [hcand]),
      if_pos hfoot2]
  exact ⟨hstep, by rw [hstep]; exact hacc⟩

/-- Concrete stream for the C3 witness: a footnote line right before the
next article's header. -/
def c3Lines : List String :=
  ["Artículo 1.- a", "Ley Nº 123, publicada el 4 de mayo", "Artículo 2.- b"]

/-- Witness for C3: on the concrete stream the scan over `[1]` with
boundary candidate 2 stops at the footnote and keeps the boundary. -/
theorem endScan_stops_at_footnote_witness :
    ((fun _ => (none : Option Header)) 1 = none) ∧
    isFootnoteLine (getLine c3Lines 1) = true ∧ 1 < 2 ∧
    scanBack c3Lines (fun _ => none) (candAt c3Lines) [1] 2 = 2 :=
  ⟨rfl, by decide, by decide,
    (endScan_stops_at_footnote c3Lines (fun _ => none) 1 [] 2 rfl (by decide) (by decide)).1⟩

/-! ## Claim C5 -/

/-- C5 (amended): the start-of-article scan examines exactly the indices
`j` with `max(0, h-30) < j < h` — the window is open at its lower end,
so `max(0, h-30)` itself is never visited — and the chosen title-block
start is the header line itself, a visited index, or one less than a
visited index (the title-continuation extension). -/
theorem startScan_window :
    (∀ h j, j ∈ startScanIndices h ↔ max 0 (h - 30) < j ∧ j < h) ∧
    (∀ (lines : List String) (lm : Nat → Option Header) (cand : Nat → Bool) (h : Nat),
      scanBack lines lm cand (startScanIndices h) h = h ∨
      ∃ j ∈ startScanIndices h,
        scanBack lines lm cand (startScanIndices h) h = j ∨
        scanBack lines lm cand (startScanIndices h) h = j - 1) := by
  constructor
  · intro h j
    rw [startScanIndices, mem_downFromTo]
    omega
  · intro lines lm cand h
    exact scanBack_result lines lm cand (startScanIndices h) h

/-- Counterexample to C5 as stated: for a header at line 2 the claimed
window is `max(0, 2-30) = 0 ≤ j < 2`, yet index 0 is never examined by
the scan. -/
theorem startScan_window_cex :
    max 0 (2 - 30) ≤ 0 ∧ 0 < 2 ∧ 0 ∉ startScanIndices 2 := by decide

/-! ## Claim C4 -/

/-- A line consisting of the article keyword and a declared number alone
never satisfies the header regex, which demands a trailing `.-`. -/
theorem noDot_not_header (t : String) (h : matchesArticuloNoDot t = true) :
    matchesArticuloHeader t = false := by
  unfold matchesArticuloNoDot at h
  unfold matchesArticuloHeader
  cases hc : parseArticuloCore t.data with
  | none => rfl
  | some p =>
    obtain ⟨num, rest⟩ := p
    rw [hc] at h
    simp at h
    subst h
    rfl

/-- A line whose stripped form satisfies the header regex is classified
ARTICULO whatever the font metadata says. -/
theorem detect_of_header (s : String) (wl : List WordLine)
    (h : matchesArticuloHeader (pyStrip s) = true) :
    detectLineType s wl = some "ARTICULO" := by
  have hne : (pyStrip s == "") = false := by
    cases hc : pyStrip s == "" with
    | false => rfl
    | true =>
      have h2 : pyStrip s = "" := by simpa using hc
      rw [h2] at h
      exact absurd h (by decide)
  unfold detectLineType
  rw [if_neg (by simp [hne])]
  dsimp only
  rw [if_pos h]

/-- A line whose stripped form fails the header regex is never classified
ARTICULO, whatever the font metadata says. -/
theorem detect_ne_articulo (s : String) (wl : List WordLine)
    (h : matchesArticuloHeader (pyStrip s) = false) :
    detectLineType s wl ≠ some "ARTICULO" := by
  unfold detectLineType
  by_cases he : pyStrip s == ""
  · rw [if_pos he]
    simp
  · rw [if_neg he]
    dsimp only
    rw [if_neg (by simp [h])]
    repeat' split
    all_goals decide

/-- C4: for every stripped text line and any font metadata, a line
matching `Artículo <n>[-<L>] .-` (surrounding whitespace stripped) is
always classified ARTICULO, and a line of the form `Artículo <n>[-<L>]`
with no trailing `.-` is never classified ARTICULO. -/
theorem detect_articulo_classification :
    (∀ s wl, matchesArticuloHeader (pyStrip s) = true →
      detectLineType s wl = some "ARTICULO") ∧
    (∀ s wl, matchesArticuloNoDot (pyStrip s) = true →
      detectLineType s wl ≠ some "ARTICULO") :=
  ⟨fun s wl h => detect_of_header s wl h,
   fun s wl h => detect_ne_articulo s wl (noDot_not_header _ h)⟩

/-- Witness for C4 at concrete inputs, with bold matching font metadata
supplied to show it is ignored. -/
theorem detect_articulo_classification_witness :
    (matchesArticuloHeader (pyStrip "  Artículo 45.-  El que  ") = true ∧
      detectLineType "  Artículo 45.-  El que  " [⟨"Artículo 45", true, 9⟩] =
        some "ARTICULO") ∧
    (matchesArticuloNoDot (pyStrip "Artículo 45") = true ∧
      detectLineType "Artículo 45" [⟨"Artículo 45", true, 9⟩] ≠ some "ARTICULO") :=
  ⟨⟨by decide, detect_articulo_classification.1 _ _ (by decide)⟩,
   ⟨by decide, detect_articulo_classification.2 _ _ (by decide)⟩⟩

/-! ## Claim C6 -/

/-- C6: on a page with no line segments the layout falls back to
`(width/2, 0.06*height, 0.92*height)`, a valid triple for any positive
page dimensions; no error path exists. -/
theorem layout_fallback (w h : ℚ) (hw : 0 < w) (hh : 0 < h) :
    computeLayout [] w h = (w / 2, h * (6/100), h * (92/100)) ∧
    0 ≤ (computeLayout [] w h).2.1 ∧
    (computeLayout [] w h).2.1 < (computeLayout [] w h).2.2 ∧
    (computeLayout [] w h).2.2 ≤ h ∧
    0 < (computeLayout [] w h).1 ∧ (computeLayout [] w h).1 < w := by
  have heq : computeLayout [] w h = (w / 2, h * (6/100), h * (92/100)) := rfl
  rw [heq]
  refine ⟨rfl, by positivity, by nlinarith, by nlinarith, by positivity, by linarith⟩

/-- Witness for C6 on a concrete page size. -/
theorem layout_fallback_witness :
    (0 : ℚ) < 100 ∧ (0 : ℚ) < 200 ∧ computeLayout [] 100 200 = (50, 12, 184) := by
  refine ⟨by norm_num, by norm_num, ?_⟩
  rw [(layout_fallback 100 200 (by norm_num) (by norm_num)).1]
  norm_num

/-! ## Claim C7 -/

/-- One range is resolved per descriptor, whatever the input. -/
theorem resolveRangesAux_length (lines : List String) (lm : Nat → Option Header)
    (cand : Nat → Bool) :
    ∀ (arts : List Article) (prevEnd : Nat) (isFirst : Bool),
      (resolveRangesAux lines lm cand arts prevEnd isFirst).length = arts.length := by
  intro arts
  induction arts with
  | nil => intro _ _; rfl
  | cons a rest ih =>
    intro prevEnd isFirst
    cases rest with
    | nil =>
      rw [resolveRangesAux_one]
      rfl
    | cons b bs =>
      rw [resolveRangesAux_two]
      simp [ih]

/-- One output file per parsed descriptor, whatever the input. -/
theorem splitFiles_length (lines : List String) (headers : List Header) :
    (splitFiles lines headers).length = (parseArticles headers).length := by
  unfold splitFiles splitRanges
  simp [List.enum_length, List.length_zip, resolveRangesAux_length]

/-- C7: an ARTICULO header whose text fails the number-extraction
pattern contributes no article descriptor, and the emitter still writes
exactly one file per remaining descriptor — none for the malformed
header; no error is raised (every function involved is total). -/
theorem malformed_articulo_dropped (pre post : List Header) (h : Header)
    (htype : h.type = "ARTICULO") (hnum : parseArticuloNum h.text = none) :
    parseArticles (pre ++ h :: post) = parseArticles pre ++ parseArticles post ∧
    ∀ lines, (splitFiles lines (pre ++ h :: post)).length =
      (parseArticles pre ++ parseArticles post).length := by
  have hmain : parseArticles (pre ++ h :: post) = parseArticles pre ++ parseArticles post := by
    unfold parseArticles
    rw [List.filterMap_append]
    congr 1
    rw [List.filterMap_cons]
    simp [htype, hnum]
  refine ⟨hmain, fun lines => ?_⟩
  rw [splitFiles_length, hmain]

/-- Metadata before the malformed header for the C7 witness. -/
def c7Pre : List Header := [⟨0, "ARTICULO", "Artículo 1.- a", 1⟩]

/-- The malformed ARTICULO header: no digits after the keyword. -/
def c7Bad : Header := ⟨1, "ARTICULO", "Artículo X.-", 1⟩

/-- Metadata after the malformed header for the C7 witness. -/
def c7Post : List Header := [⟨2, "ARTICULO", "Artículo 2.- b", 1⟩]

/-- Line stream for the C7 witness. -/
def c7Lines : List String := ["Artículo 1.- a", "Artículo X.-", "Artículo 2.- b"]

/-- Witness for C7 on concrete metadata. -/
theorem malformed_articulo_dropped_witness :
    c7Bad.type = "ARTICULO" ∧ parseArticuloNum c7Bad.text = none ∧
    parseArticles (c7Pre ++ c7Bad :: c7Post) = parseArticles c7Pre ++ parseArticles c7Post ∧
    (splitFiles c7Lines (c7Pre ++ c7Bad :: c7Post)).length =
      (parseArticles c7Pre ++ parseArticles c7Post).length :=
  ⟨by decide, by decide,
   (malformed_articulo_dropped c7Pre c7Post c7Bad (by decide) (by decide)).1,
   (malformed_articulo_dropped c7Pre c7Post c7Bad (by decide) (by decide)).2 c7Lines⟩

/-! ## Claim C8 -/

/-- Lexicographic order on character lists, used to state that filenames
sort in document order. -/
def lexLt : List Char → List Char → Bool
  | [], [] => false
  | [], _ :: _ => true
  | _ :: _, [] => false
  | a :: as, b :: bs => if a < b then true else if a = b then lexLt as bs else false

/-- Line stream for the C8 scenario. -/
def c8Lines : List String :=
  ["Artículo 15.- a", "Artículo 15-A.- b", "Artículo 16.- c"]

/-- Metadata for the C8 scenario: declared numbers 15, 15-A, 16. -/
def c8Headers : List Header :=
  [⟨0, "ARTICULO", "Artículo 15.- a", 1⟩, ⟨1, "ARTICULO", "Artículo 15-A.- b", 1⟩,
   ⟨2, "ARTICULO", "Artículo 16.- c", 1⟩]

/-- C8: declared numbers 15, 15-A, 16 produce exactly three files whose
names carry the occurrence ordinal and the zero-padded declared number
(with suffix letter), are pairwise distinct, and sort in document
order. -/
theorem articulo_suffix_filenames :
    (splitFiles c8Lines c8Headers).map Prod.fst =
      ["1_articulo_015.txt", "2_articulo_015_A.txt", "3_articulo_016.txt"] ∧
    List.Pairwise (· ≠ ·) ((splitFiles c8Lines c8Headers).map Prod.fst) ∧
    List.Pairwise (fun a b => lexLt a.data b.data = true)
      ((splitFiles c8Lines c8Headers).map Prod.fst) := by
  have hmap : (splitFiles c8Lines c8Headers).map Prod.fst =
      ["1_articulo_015.txt", "2_articulo_015_A.txt", "3_articulo_016.txt"] := by decide
  refine ⟨hmap, ?_, ?_⟩ <;> rw [hmap] <;> decide

/-! ## Claim C9 -/

/-- The invariant of the metadata built by `extract_with_metadata`:
header line indices strictly increase in list order, lie inside the
stream, and each header's text is the stripped text of its stream line. -/
def headersInv (stream : List String) (headers : List Header) : Prop :=
  List.Pairwise (fun a b => a.line < b.line) headers ∧
  ∀ hd ∈ headers, hd.line < stream.length ∧
    hd.text = pyStrip (stream.getD hd.line "")

/-- Unfolding `processColumn` one line. -/
theorem processColumn_cons (page : Nat) (wls : List WordLine) (l : String)
    (rest stream : List String) (headers : List Header) :
    processColumn page wls (l :: rest) stream headers =
      if pyStrip l == "" then processColumn page wls rest stream headers
      else
        match detectLineType (pyStrip l) wls with
        | some t =>
          processColumn page wls rest (stream ++ [l])
            (headers ++ [⟨stream.length, t, pyStrip l, page⟩])
        | none => processColumn page wls rest (stream ++ [l]) headers := rfl

/-- Appending a stream line preserves the header invariant. -/
theorem headersInv_extend (stream : List String) (l : String) (headers : List Header)
    (h : headersInv stream headers) : headersInv (stream ++ [l]) headers := by
  refine ⟨h.1, fun hd hm => ?_⟩
  have h2 := h.2 hd hm
  constructor
  · simp
    omega
  · rw [List.getD_append _ _ _ _ h2.1]
    exact h2.2

/-- Recording a header at the current stream length preserves the
invariant once the line is appended. -/
theorem headersInv_push (stream : List String) (l : String) (headers : List Header)
    (t : String) (page : Nat) (h : headersInv stream headers) :
    headersInv (stream ++ [l]) (headers ++ [⟨stream.length, t, pyStrip l, page⟩]) := by
  constructor
  · rw [List.pairwise_append]
    refine ⟨h.1, List.pairwise_singleton _ _, fun a ha b hb => ?_⟩
    simp at hb
    subst hb
    exact (h.2 a ha).1
  · intro hd hm
    rcases List.mem_append.mp hm with hold | hnew
    · exact (headersInv_extend stream l headers h).2 hd hold
    · simp at hnew
      subst hnew
      refine ⟨by simp, ?_⟩
      rw [List.getD_append_right _ _ _ _ (le_refl _)]
      simp

/-- The per-line loop preserves the header invariant. -/
theorem processColumn_inv (page : Nat) (wls : List WordLine) :
    ∀ (tls stream : List String) (headers : List Header),
      headersInv stream headers →
      headersInv (processColumn page wls tls stream headers).1
        (processColumn page wls tls stream headers).2 := by
  intro tls
  induction tls with
  | nil => exact fun stream headers h => h
  | cons l rest ih =>
    intro stream headers h
    rw [processColumn_cons]
    by_cases he : pyStrip l == ""
    · rw [if_pos he]
      exact ih stream headers h
    · rw [if_neg he]
      cases detectLineType (pyStrip l) wls with
      | some t => exact ih _ _ (headersInv_push stream l headers t page h)
      | none => exact ih _ _ (headersInv_extend stream l headers h)

/-- The whole-document fold preserves the header invariant. -/
theorem extract_inv_aux :
    ∀ (cols : List Column) (stream : List String) (headers : List Header),
      headersInv stream headers →
      headersInv
        (cols.foldl (fun acc c =>
          processColumn c.page c.wordLines c.textLines acc.1 acc.2) (stream, headers)).1
        (cols.foldl (fun acc c =>
          processColumn c.page c.wordLines c.textLines acc.1 acc.2) (stream, headers)).2 := by
  intro cols
  induction cols with
  | nil => exact fun stream headers h => h
  | cons c rest ih =>
    intro stream headers h
    rw [List.foldl_cons]
    exact ih _ _ (processColumn_inv c.page c.wordLines c.textLines stream headers h)

/-- C9: in the metadata produced by `extract_with_metadata`, header line
indices strictly increase in list order, every index lies inside the
stream, and each header's text equals the stripped text of the stream
line at its index. -/
theorem extract_headers_invariant (cols : List Column) :
    List.Pairwise (fun a b => a.line < b.line) (extractWithMetadata cols).2 ∧
    ∀ hd ∈ (extractWithMetadata cols).2,
      hd.line < (extractWithMetadata cols).1.length ∧
      hd.text = pyStrip ((extractWithMetadata cols).1.getD hd.line "") := by
  have h := extract_inv_aux cols [] [] ⟨List.Pairwise.nil, by simp⟩
  exact ⟨h.1, h.2⟩

/-- Input columns for the C9 witness. -/
def c9Cols : List Column := [⟨1, ["TÍTULO I", "   ", "cuerpo"], []⟩]

/-- Witness for C9: the produced header for the concrete column input
satisfies the invariant. -/
theorem extract_headers_invariant_witness :
    (⟨0, "TITULO", "TÍTULO I", 1⟩ : Header) ∈ (extractWithMetadata c9Cols).2 ∧
    0 < (extractWithMetadata c9Cols).1.length ∧
    "TÍTULO I" = pyStrip ((extractWithMetadata c9Cols).1.getD 0 "") := by
  have hm : (⟨0, "TITULO", "TÍTULO I", 1⟩ : Header) ∈ (extractWithMetadata c9Cols).2 := by
    decide
  exact ⟨hm, (extract_headers_invariant c9Cols).2 _ hm⟩

/-! ## Claim C10 -/

/-- C10: line access in both backward scans substitutes `""` beyond the
end of the stream, and boundary resolution completes — producing one
range per parsed descriptor — for every metadata table, including those
whose line indices exceed the stream length. -/
theorem guarded_line_access :
    (∀ (lines : List String) (j : Nat), lines.length ≤ j → getLine lines j = "") ∧
    (∀ (lines : List String) (headers : List Header),
      (splitRanges lines headers).length = (parseArticles headers).length) := by
  constructor
  · intro lines j h
    unfold getLine
    rw [if_neg (by omega)]
  · intro lines headers
    unfold splitRanges
    exact resolveRangesAux_length lines _ _ _ 0 true

/-- Out-of-range metadata for the C10 witness. -/
def c10Headers : List Header := [⟨99, "ARTICULO", "Artículo 7.- x", 1⟩]

/-- Witness for C10: a header at line 99 against a one-line stream still
resolves to one range, and the guarded access yields `""`. -/
theorem guarded_line_access_witness :
    (["a"] : List String).length ≤ 5 ∧ getLine ["a"] 5 = "" ∧
    (splitRanges ["a"] c10Headers).length = (parseArticles c10Headers).length :=
  ⟨by decide, guarded_line_access.1 ["a"] 5 (by decide),
   guarded_line_access.2 ["a"] c10Headers⟩

end CodigoPenal
